import Mathlib

/-!
Verification development for the Dataset Builder repository
(projects → categories → chunks, snapshot differ, commit log,
session registry / broadcast router).

The JavaScript source is shallowly embedded below.  JS `Map`s built from
entry lists are modelled as association lists constructed with an
update-or-append operation (`upsert`, matching `Map.prototype.set` /
object index assignment: the value of an existing key is replaced in
place, a new key is appended).  Lookup (`alookup`) returns the value of
the first — hence, after `mkMap`, unique — occurrence of a key, matching
`Map.prototype.get`.  All record fields carry the types the running
program actually stores in them (strings, booleans, lists).
-/

namespace DatasetBuilder

/-- Object/Map assignment: replace the value of the first occurrence of
the key, or append a fresh entry (JS `map.set(k, v)` / `obj[k] = v`). -/
def upsert (k : String) (v : α) : List (String × α) → List (String × α)
  | [] => [(k, v)]
  | p :: rest => if p.1 = k then (k, v) :: rest else p :: upsert k v rest

/-- JS `new Map(entries)`: entries folded in order with `set` semantics. -/
def mkMap (l : List (String × α)) : List (String × α) :=
  l.foldl (fun m p => upsert p.1 p.2 m) []

/-- Map/object lookup by key (JS `map.get(k)` / `obj[k]`). -/
def alookup (k : String) : List (String × α) → Option α
  | [] => none
  | p :: rest => if p.1 = k then some p.2 else alookup k rest

/-- JS `String.prototype.includes`: substring test. -/
def strIncludes (hay needle : String) : Bool :=
  hay.toList.tails.any (fun t => needle.toList.isPrefixOf t)

/-- Kind of a change record produced by the differ (`d.type`). -/
inductive DiffType
  | added
  | deleted
  | modified
deriving DecidableEq

/-- One change record of the snapshot differ (`{ type, text }`). -/
structure DiffRec where
  type : DiffType
  text : String
deriving DecidableEq

/-- Fixed metadata record of a chunk: the three reserved fields.  This is
the shape the store creates for every chunk (`{ page_title, source,
license }`); the open-ended custom pairs live in the separate
`customFields` list of the chunk. -/
structure Metadata where
  page_title : String
  source : String
  license : String
deriving DecidableEq

/-- A chunk as stored in a snapshot: stable `_uid`, mutable user-facing
`id`, text body, fixed metadata record and custom key/value pairs. -/
structure Chunk where
  _uid : String
  id : String
  text : String
  metadata : Metadata
  customFields : List (String × String)
deriving DecidableEq

/-- A category: stable `id`, display `name`, UI expansion flag, chunks. -/
structure Category where
  id : String
  name : String
  expanded : Bool
  chunks : List Chunk
deriving DecidableEq

/-- A snapshot of one dataset: its ordered categories. -/
structure Snapshot where
  categories : List Category
deriving DecidableEq

/-- Text of a record for a category present only in the previous
snapshot. -/
def catDeletedText (cat : Category) : String :=
  "Category \"" ++ cat.name ++ "\" removed (" ++ toString cat.chunks.length ++ " chunks)"

/-- Text of a record for a category present only in the current
snapshot. -/
def catAddedText (cat : Category) : String :=
  "Category \"" ++ cat.name ++ "\" added (" ++ toString cat.chunks.length ++ " chunks)"

/-- Text of a category rename record. -/
def catRenamedText (prevName currName : String) : String :=
  "Category renamed: \"" ++ prevName ++ "\" → \"" ++ currName ++ "\""

/-- Text of a record for a chunk that disappeared from a category. -/
def chunkRemovedText (ch : Chunk) (catName : String) : String :=
  "Chunk \"" ++ ch.id ++ "\" removed from \"" ++ catName ++ "\""

/-- Text of a record for a chunk that appeared in a category. -/
def chunkAddedText (ch : Chunk) (catName : String) : String :=
  "Chunk \"" ++ ch.id ++ "\" added to \"" ++ catName ++ "\""

/-- Text of a cross-category move record. -/
def chunkMovedText (ch : Chunk) (fromCat toCat : String) : String :=
  "Chunk \"" ++ ch.id ++ "\" moved: \"" ++ fromCat ++ "\" → \"" ++ toCat ++ "\""

/-- Field-by-field change list for a chunk present in both snapshots
(the `changes` array of `App._computeDiff`).  The metadata key union of
two fixed three-field records is exactly `page_title, source, license`
in insertion order, so the JS `for (const k of metaKeys)` loop is the
three explicit comparisons below. -/
def chunkChanges (prevCh currCh : Chunk) : List String :=
  (if prevCh.id ≠ currCh.id then
    ["id: \"" ++ prevCh.id ++ "\" → \"" ++ currCh.id ++ "\""] else [])
  ++ (if prevCh.text ≠ currCh.text then
    ["text changed (" ++ toString prevCh.text.length ++ " → " ++ toString currCh.text.length ++ " chars)"] else [])
  ++ (if prevCh.metadata.page_title ≠ currCh.metadata.page_title then
    ["page_title: \"" ++ prevCh.metadata.page_title ++ "\" → \"" ++ currCh.metadata.page_title ++ "\""] else [])
  ++ (if prevCh.metadata.source ≠ currCh.metadata.source then
    ["source: \"" ++ prevCh.metadata.source ++ "\" → \"" ++ currCh.metadata.source ++ "\""] else [])
  ++ (if prevCh.metadata.license ≠ currCh.metadata.license then
    ["license: \"" ++ prevCh.metadata.license ++ "\" → \"" ++ currCh.metadata.license ++ "\""] else [])

/-- The modified record for a chunk pair, when any change was found
(`if (changes.length > 0) diffs.push(...)`). -/
def chunkModRec (catName : String) (prevCh currCh : Chunk) : Option DiffRec :=
  let cs := chunkChanges prevCh currCh
  if cs.isEmpty then none
  else some ⟨.modified,
    "Chunk \"" ++ currCh.id ++ "\" in \"" ++ catName ++ "\": " ++ String.intercalate ", " cs⟩

/-- JS `new Map(categories.map(c => [c.id, c]))`. -/
def catMap (s : Snapshot) : List (String × Category) :=
  mkMap (s.categories.map (fun c => (c.id, c)))

/-- JS `new Map(cat.chunks.map(ch => [ch._uid, ch]))`. -/
def chunkMap (c : Category) : List (String × Chunk) :=
  mkMap (c.chunks.map (fun ch => (ch._uid, ch)))

/-- Records for categories present only in the previous snapshot. -/
def catDeletionRecs (prev curr : Snapshot) : List DiffRec :=
  (catMap prev).filterMap (fun p =>
    if (alookup p.1 (catMap curr)).isSome then none
    else some ⟨.deleted, catDeletedText p.2⟩)

/-- Records for categories present only in the current snapshot. -/
def catAdditionRecs (prev curr : Snapshot) : List DiffRec :=
  (catMap curr).filterMap (fun p =>
    if (alookup p.1 (catMap prev)).isSome then none
    else some ⟨.added, catAddedText p.2⟩)

/-- The per-category body of the third loop of `App._computeDiff`: for a
current-snapshot category also present in the previous snapshot, its
rename record, then its chunk deletions, additions and modifications. -/
def catBlock (prevCats : List (String × Category)) (p : String × Category) : List DiffRec :=
  match alookup p.1 prevCats with
  | none => []
  | some prevCat =>
    let currCat := p.2
    let renames : List DiffRec :=
      if prevCat.name ≠ currCat.name then
        [⟨.modified, catRenamedText prevCat.name currCat.name⟩] else []
    let pm := chunkMap prevCat
    let cm := chunkMap currCat
    let dels := pm.filterMap (fun q =>
      if (alookup q.1 cm).isSome then none
      else some ⟨.deleted, chunkRemovedText q.2 currCat.name⟩)
    let adds := cm.filterMap (fun q =>
      if (alookup q.1 pm).isSome then none
      else some ⟨.added, chunkAddedText q.2 currCat.name⟩)
    let mods := cm.filterMap (fun q =>
      match alookup q.1 pm with
      | none => none
      | some prevCh => chunkModRec currCat.name prevCh q.2)
    renames ++ dels ++ adds ++ mods

/-- All records of the third loop, over current categories in encounter
order. -/
def bothCatRecs (prev curr : Snapshot) : List DiffRec :=
  (catMap curr).flatMap (catBlock (catMap prev))

/-- Owning-category name and chunk, as stored in the `allPrevChunkUids`
and `allCurrChunkUids` maps (`{ cat: cat.name, ch }`). -/
structure MoveInfo where
  cat : String
  ch : Chunk
deriving DecidableEq

/-- The map from stable chunk identifier to owning-category name and
chunk, over the whole snapshot. -/
def allChunkMap (s : Snapshot) : List (String × MoveInfo) :=
  mkMap (s.categories.flatMap (fun cat => cat.chunks.map (fun ch => (ch._uid, ⟨cat.name, ch⟩))))

/-- JS `Array.prototype.findIndex`: first index satisfying the
predicate, or -1. -/
def findIdxJS (p : α → Bool) (l : List α) : Int :=
  match l.findIdx? p with
  | some n => (n : Int)
  | none => -1

/-- JS `Array.prototype.splice(start, 1)`: remove one element, with the
negative-start-counts-from-the-end convention. -/
def spliceRemove1 (l : List α) (start : Int) : List α :=
  let len : Int := (l.length : Int)
  let s : Int := if start < 0 then max (len + start) 0 else min start len
  l.take s.toNat ++ l.drop (s.toNat + 1)

/-- Whether the reconciliation loop acts on an entry of the current
all-chunks map: its uid is also in the previous snapshot, under a
different owning category. -/
def moveCond (allPrev : List (String × MoveInfo)) (e : String × MoveInfo) : Bool :=
  match alookup e.1 allPrev with
  | some prevInfo => prevInfo.cat ≠ e.2.cat
  | none => false

/-- One iteration of the cross-category reconciliation loop of
`App._computeDiff`: find the independently generated added and deleted
records by substring matching, splice them out, append a move record. -/
def reconStep (allPrev : List (String × MoveInfo)) (diffs : List DiffRec)
    (e : String × MoveInfo) : List DiffRec :=
  match alookup e.1 allPrev with
  | none => diffs
  | some prevInfo =>
    if prevInfo.cat ≠ e.2.cat then
      let addIdx := findIdxJS (fun d => d.type = DiffType.added
        && strIncludes d.text ("\"" ++ e.2.ch.id ++ "\"")
        && strIncludes d.text ("\"" ++ e.2.cat ++ "\"")) diffs
      let delIdx := findIdxJS (fun d => d.type = DiffType.deleted
        && strIncludes d.text ("\"" ++ prevInfo.ch.id ++ "\"")
        && strIncludes d.text ("\"" ++ prevInfo.cat ++ "\"")) diffs
      let d1 := if addIdx ≠ -1 then spliceRemove1 diffs addIdx else diffs
      let d2 := if delIdx ≠ -1 then
          spliceRemove1 d1 (if delIdx > addIdx then delIdx - 1 else delIdx)
        else d1
      d2 ++ [⟨.modified, chunkMovedText e.2.ch prevInfo.cat e.2.cat⟩]
    else diffs

/-- Shallow embedding of `App._computeDiff(prev, curr)`. -/
def computeDiff (prev : Option Snapshot) (curr : Snapshot) : List DiffRec :=
  match prev with
  | none =>
    curr.categories.flatMap (fun cat =>
      (⟨.added, "Category \"" ++ cat.name ++ "\" (" ++ toString cat.chunks.length ++ " chunks)"⟩ : DiffRec)
      :: cat.chunks.map (fun ch =>
        (⟨.added, "Chunk \"" ++ ch.id ++ "\" in \"" ++ cat.name ++ "\""⟩ : DiffRec)))
  | some prevS =>
    let base := catDeletionRecs prevS curr ++ catAdditionRecs prevS curr ++ bothCatRecs prevS curr
    (allChunkMap curr).foldl (reconStep (allChunkMap prevS)) base

/-- Decidable test that no chunk moved between categories: every stable
identifier of the current snapshot that also occurs in the previous
snapshot occurs under the same owning-category name. -/
def noMoveB (prev curr : Snapshot) : Bool :=
  (allChunkMap curr).all (fun e => !(moveCond (allChunkMap prev) e))

/-- Rename records for all categories present in both snapshots, in
current-snapshot encounter order. -/
def catRenameRecs (prev curr : Snapshot) : List DiffRec :=
  (catMap curr).filterMap (fun p =>
    match alookup p.1 (catMap prev) with
    | none => none
    | some prevCat =>
      if prevCat.name ≠ p.2.name then
        some ⟨.modified, catRenamedText prevCat.name p.2.name⟩
      else none)

/-- Chunk-level records of one category in the order the specification
claims: its deletions, additions, modifications and moves.  This is a
specification-side definition used only to compare the claimed record
order against the code; the individual records are generated exactly as
the code generates them. -/
def claimChunkBlock (prev : Snapshot) (p : String × Category) : List DiffRec :=
  match alookup p.1 (catMap prev) with
  | none => []
  | some prevCat =>
    let currCat := p.2
    let pm := chunkMap prevCat
    let cm := chunkMap currCat
    let dels := pm.filterMap (fun q =>
      if (alookup q.1 cm).isSome then none
      else some ⟨.deleted, chunkRemovedText q.2 currCat.name⟩)
    let adds := cm.filterMap (fun q =>
      if (alookup q.1 pm).isSome then none
      else some ⟨.added, chunkAddedText q.2 currCat.name⟩)
    let mods := cm.filterMap (fun q =>
      match alookup q.1 pm with
      | none => none
      | some prevCh => chunkModRec currCat.name prevCh q.2)
    let moves := cm.filterMap (fun q =>
      match alookup q.1 (allChunkMap prev) with
      | none => none
      | some prevInfo =>
        if prevInfo.cat ≠ currCat.name then
          some ⟨.modified, chunkMovedText q.2 prevInfo.cat currCat.name⟩
        else none)
    dels ++ adds ++ mods ++ moves

/-- Specification-side definition of the record order claimed by the
spec: all category deletions, then all category additions, then all
category modifications, then the per-category chunk records in
category-then-chunk encounter order. -/
def claimOrderedDiff (prev curr : Snapshot) : List DiffRec :=
  catDeletionRecs prev curr
  ++ catAdditionRecs prev curr
  ++ catRenameRecs prev curr
  ++ (catMap curr).flatMap (claimChunkBlock prev)

/-- The metadata record of a chunk in the sense of the specification's
data model: the three reserved fields followed by the open-ended list of
custom key/value pairs. -/
def claimMetaRecord (ch : Chunk) : List (String × String) :=
  [("page_title", ch.metadata.page_title),
   ("source", ch.metadata.source),
   ("license", ch.metadata.license)]
  ++ ch.customFields

/-- JS `String.prototype.trim`: drop leading and trailing whitespace.
Defined over the character list so that it evaluates by kernel
reduction. -/
def jsTrim (s : String) : String :=
  String.mk (((s.data.dropWhile Char.isWhitespace).reverse.dropWhile Char.isWhitespace).reverse)

/-- A flat import/export record: user-facing id, text, and one flat
metadata object (modelled as a key-unique association list in insertion
order). -/
structure FlatRecord where
  id : String
  text : String
  metadata : List (String × String)
deriving DecidableEq

/-- The reserved metadata keys of the import path (`STANDARD_META`). -/
def STANDARD_META : List String := ["page_title", "source", "license"]

/-- JS `meta.key || ''` for a string-valued metadata object: the value
at the key, or the empty string when the key is absent. -/
def getMetaD (m : List (String × String)) (k : String) : String :=
  (alookup k m).getD ""

/-- One imported chunk of `Store.importProject`: reserved keys become
the fixed metadata fields, all other keys become custom fields in
encounter order; `u` is the freshly generated stable identifier. -/
def importChunk (u : String) (x : FlatRecord) : Chunk :=
  { _uid := u
    id := x.id
    text := x.text
    metadata :=
      { page_title := getMetaD x.metadata "page_title"
        source := getMetaD x.metadata "source"
        license := getMetaD x.metadata "license" }
    customFields := x.metadata.filter (fun p => !STANDARD_META.contains p.1) }

/-- The import loop over the flat array, with one fresh stable
identifier drawn per record (the `uid()` calls, modelled by the stream
`fresh`). -/
def importChunks (fresh : Nat → String) : Nat → List FlatRecord → List Chunk
  | _, [] => []
  | i, x :: xs => importChunk (fresh i) x :: importChunks fresh (i + 1) xs

/-- A project of the localStorage-backed store. -/
structure StoreProject where
  id : String
  name : String
  createdAt : String
  categories : List Category
deriving DecidableEq

/-- Shallow embedding of `Store.importProject(name, jsonArray)`:
a fresh project holding one category named "Imported" with all imported
chunks.  The `uid()` results for the project id, the category id and the
chunks are passed in explicitly. -/
def importProject (fresh : Nat → String) (pId catId createdAt name : String)
    (xs : List FlatRecord) : StoreProject :=
  { id := pId
    name := jsTrim name
    createdAt := createdAt
    categories :=
      [{ id := catId, name := "Imported", expanded := true,
         chunks := importChunks fresh 0 xs }] }

/-- One exported record of `Store.exportJSON`: the fixed metadata fields
spread into a fresh object, then each custom field with a non-blank key
assigned under its trimmed key. -/
def exportChunk (ch : Chunk) : FlatRecord :=
  { id := ch.id
    text := ch.text
    metadata := ch.customFields.foldl (fun m cf =>
      if cf.1 ≠ "" ∧ jsTrim cf.1 ≠ "" then upsert (jsTrim cf.1) cf.2 m else m)
      [("page_title", ch.metadata.page_title),
       ("source", ch.metadata.source),
       ("license", ch.metadata.license)] }

/-- Shallow embedding of `Store.exportJSON()`: all chunks of all
categories flattened in order. -/
def exportJSON (p : StoreProject) : List FlatRecord :=
  p.categories.flatMap (fun cat => cat.chunks.map exportChunk)

/-- Replace the first element satisfying the predicate (the JS code
mutates the object returned by `Array.prototype.find`). -/
def updateFirst (p : α → Bool) (f : α → α) : List α → List α
  | [] => []
  | x :: xs => if p x then f x :: xs else x :: updateFirst p f xs

/-- Shallow embedding of `Store.duplicateChunk(catId, chunkUid)` on the
current project: a deep copy of the found chunk with a fresh stable
identifier and the id suffixed with "_copy" (empty when the original id
is empty) is appended to the category's chunks.  Returns the updated
project and the appended copy. -/
def duplicateChunk (project : StoreProject) (catId chunkUid freshUid : String) :
    Option (StoreProject × Chunk) :=
  match project.categories.find? (fun c => c.id = catId) with
  | none => none
  | some cat =>
    match cat.chunks.find? (fun ch => ch._uid = chunkUid) with
    | none => none
    | some orig =>
      let copy : Chunk :=
        { orig with
          _uid := freshUid
          id := if orig.id ≠ "" then orig.id ++ "_copy" else "" }
      some
        ({ project with
           categories := updateFirst (fun c => c.id = catId)
             (fun c => { c with chunks := c.chunks ++ [copy] }) project.categories },
         copy)

/-- Shallow embedding of `Store.isChunkIdTaken(id, excludeUid)`: whether
some chunk of the project other than the excluded one carries the given
non-empty user-facing id. -/
def isChunkIdTaken (project : StoreProject) (cid excludeUid : String) : Bool :=
  if cid = "" then false
  else project.categories.any (fun cat =>
    cat.chunks.any (fun ch => ch._uid ≠ excludeUid ∧ ch.id = cid))

/-- A connected WebSocket client handle: an identity and the JS
`readyState` (1 = OPEN). -/
structure WClient where
  cid : Nat
  readyState : Nat
deriving DecidableEq

/-- A session registry entry: the browser-role and mcp-role member sets
and the creation timestamp. -/
structure Session where
  browsers : List WClient
  mcpClients : List WClient
  createdAt : Nat
deriving DecidableEq

/-- Payload of a broadcast event. -/
inductive WsData
  | projectOf (project : String)
  | timestampOf (timestamp : Nat)
deriving DecidableEq

/-- One serialized WebSocket message (`{ event, data }`). -/
structure WsMsg where
  event : String
  data : WsData
deriving DecidableEq

/-- JS `Set.prototype.delete`: remove the handle from a member set. -/
def setDelete (l : List WClient) (ws : WClient) : List WClient :=
  l.filter (fun x => x ≠ ws)

/-- JS `Map.prototype.delete` on the session registry. -/
def mapDelete (code : String) (sessions : List (String × Session)) :
    List (String × Session) :=
  sessions.filter (fun p => p.1 ≠ code)

/-- Shallow embedding of `broadcastToBrowsers(sessionCode, event,
data)`: the list of deliveries it performs — the message is sent to
every browser-role handle of the session whose `readyState` is OPEN,
and to nobody when the code is unknown. -/
def broadcastToBrowsers (sessions : List (String × Session)) (code : String)
    (event : String) (data : WsData) : List (WClient × WsMsg) :=
  match alookup code sessions with
  | none => []
  | some s =>
    (s.browsers.filter (fun ws => ws.readyState = 1)).map (fun ws => (ws, ⟨event, data⟩))

/-- JS truthiness of an optional request field holding a string. -/
def jsTruthyStr : Option String → Bool
  | none => false
  | some s => s ≠ ""

/-- Shallow embedding of the `POST /api/projects/:name/categories`
handler: the store call's outcome is passed in (the store lives in
`lib/store.js`); on success, if a truthy session code was supplied, the
`data:changed` event is broadcast via `broadcastToBrowsers`.  Returns
the response outcome and the deliveries performed. -/
def createCategoryRoute (createResult : Except String Category)
    (sessions : List (String × Session)) (projectName : String)
    (sessionParam : Option String) :
    Except String Category × List (WClient × WsMsg) :=
  match createResult with
  | .error e => (.error e, [])
  | .ok result =>
    (.ok result,
     if jsTruthyStr sessionParam then
       broadcastToBrowsers sessions (sessionParam.getD "") "data:changed"
         (.projectOf projectName)
     else [])

/-- The session value after the close handler removed the disconnecting
handle from its role's member set. -/
def closeUpdatedSession (clientType : String) (ws : WClient) (s : Session) : Session :=
  if clientType = "mcp" then { s with mcpClients := setDelete s.mcpClients ws }
  else { s with browsers := setDelete s.browsers ws }

/-- Shallow embedding of the `ws.on('close')` handler: remove the handle
from its role's set (mutating the session held in the registry), on an
mcp disconnect broadcast `mcp:disconnected` to the session's browsers,
then delete the session from the registry when both member sets are now
empty.  Returns the updated registry and the deliveries performed. -/
def wsCloseHandler (sessions : List (String × Session)) (code : String)
    (clientType : String) (ws : WClient) (now : Nat) :
    List (String × Session) × List (WClient × WsMsg) :=
  match alookup code sessions with
  | none => (sessions, [])
  | some s =>
    let s' := closeUpdatedSession clientType ws s
    let sessions' := upsert code s' sessions
    let sent :=
      if clientType = "mcp" then
        broadcastToBrowsers sessions' code "mcp:disconnected" (.timestampOf now)
      else []
    (if s'.browsers = [] ∧ s'.mcpClients = [] then mapDelete code sessions'
     else sessions', sent)

/-- Shallow embedding of the periodic `setInterval` sweep: delete every
session whose member sets are both empty and whose age exceeds 30
minutes. -/
def sweepSessions (now : Nat) (sessions : List (String × Session)) :
    List (String × Session) :=
  sessions.filter (fun p =>
    !(p.2.browsers = [] ∧ p.2.mcpClients = [] ∧ 30 * 60 * 1000 < now - p.2.createdAt))

/-- Specification-side definition of the recipients the claim expects of
a broadcast: every currently connected handle in both roles of the
session except the originator. -/
def claimBroadcastTargets (sessions : List (String × Session)) (code : String)
    (originator : WClient) : List WClient :=
  match alookup code sessions with
  | none => []
  | some s =>
    (s.browsers ++ s.mcpClients).filter (fun c => c.readyState = 1 ∧ c ≠ originator)

/-- One commit of the per-dataset commit log: metadata only (the
attached snapshot plays no role in the capacity and ordering laws). -/
structure Commit where
  cid : String
  timestamp : Nat
  source : String
  action : String
  summary : String
deriving DecidableEq

/-- Modelled from the spec: the commit-log capacity constant N.  The
Commit Log itself is implemented in the server's `lib/store.js`, which
is not part of this repository's sources; spec §4.3 fixes N = 50 as a
configuration constant, not adjustable per dataset. -/
def COMMIT_LIMIT : Nat := 50

/-- Last `n` elements of a list. -/
def takeLast (n : Nat) (l : List α) : List α := l.drop (l.length - n)

/-- Modelled from the spec: `CommitLog.append` stores the new commit,
evicting the oldest entry first if the log is at (or, defensively, over)
capacity.  The implementation lives in the server's `lib/store.js`,
which is absent from the sources. -/
def commitLogAppend (log : List Commit) (c : Commit) : List Commit :=
  (if COMMIT_LIMIT ≤ log.length then log.drop (log.length + 1 - COMMIT_LIMIT) else log)
  ++ [c]

/-- Modelled from the spec: the commit log after a sequence of
successful mutations on a fresh dataset, each mutation appending its
commit in order. -/
def commitLogOfRun (muts : List Commit) : List Commit :=
  muts.foldl commitLogAppend []

/-- Key uniqueness of an association list (the invariant of every JS
Map / object embedding). -/
abbrev PairwiseKeys (m : List (String × α)) : Prop :=
  List.Pairwise (fun p q => p.1 ≠ q.1) m

/-- Empty three-field metadata record, used by the concrete examples. -/
def emptyMeta : Metadata := ⟨"", "", ""⟩

/-- Chunk moved from category "A" to category "B" in the C1 example. -/
def c1chunkX : Chunk := ⟨"u1", "c1", "t", emptyMeta, []⟩

/-- Previous snapshot of the C1 example: the chunk lives in "A". -/
def c1prev : Snapshot := ⟨[⟨"a", "A", true, [c1chunkX]⟩]⟩

/-- Current snapshot of the C1 example: the chunk moved to the freshly
added category "B". -/
def c1curr : Snapshot := ⟨[⟨"a", "A", true, []⟩, ⟨"b", "B", true, [c1chunkX]⟩]⟩

/-- Previous snapshot of the C2 example: a chunk in category "X", and an
empty category named "Y1". -/
def c2prev : Snapshot := ⟨[⟨"x", "X", true, [⟨"u1", "c", "a", emptyMeta, []⟩]⟩, ⟨"y", "Y1", true, []⟩]⟩

/-- Current snapshot of the C2 example: the chunk's text changed and the
empty category was renamed to "Y2". -/
def c2curr : Snapshot := ⟨[⟨"x", "X", true, [⟨"u1", "c", "b", emptyMeta, []⟩]⟩, ⟨"y", "Y2", true, []⟩]⟩

/-- Chunk of the C3 example before the change: custom field lvl = 1. -/
def c3chunkP : Chunk := ⟨"u1", "c", "t", emptyMeta, [("lvl", "1")]⟩

/-- Chunk of the C3 example after the change: custom field lvl = 2. -/
def c3chunkQ : Chunk := ⟨"u1", "c", "t", emptyMeta, [("lvl", "2")]⟩

/-- Category holding the C3 example chunk, previous snapshot. -/
def c3catP : Category := ⟨"x", "X", true, [c3chunkP]⟩

/-- Category holding the C3 example chunk, current snapshot. -/
def c3catQ : Category := ⟨"x", "X", true, [c3chunkQ]⟩

/-- Previous snapshot of the C3 example. -/
def c3prev : Snapshot := ⟨[c3catP]⟩

/-- Current snapshot of the C3 example. -/
def c3curr : Snapshot := ⟨[c3catQ]⟩

/-- Chunk of the C3 witness, previous state. -/
def w3prevCh : Chunk := ⟨"u9", "w", "aa", emptyMeta, []⟩

/-- Chunk of the C3 witness, current state (text changed). -/
def w3currCh : Chunk := ⟨"u9", "w", "bbb", emptyMeta, []⟩

/-- Category of the C3 witness, previous snapshot. -/
def w3catP : Category := ⟨"k", "K", true, [w3prevCh]⟩

/-- Category of the C3 witness, current snapshot. -/
def w3catQ : Category := ⟨"k", "K", true, [w3currCh]⟩

/-- Previous snapshot of the C3 witness. -/
def w3prev : Snapshot := ⟨[w3catP]⟩

/-- Current snapshot of the C3 witness. -/
def w3curr : Snapshot := ⟨[w3catQ]⟩

/-- Flat record of the C5 witness: the three reserved keys plus one
custom key, in mixed insertion order. -/
def c5rec1 : FlatRecord :=
  ⟨"sword", "a blade", [("page_title", "Sword"), ("lore", "old"), ("source", "wiki"), ("license", "CC")]⟩

/-- Second flat record of the C5 witness. -/
def c5rec2 : FlatRecord :=
  ⟨"axe", "chops", [("page_title", "Axe"), ("source", ""), ("license", "CC"), ("dmg", "7")]⟩

/-- A connected browser-role handle used by the server examples. -/
def wsB : WClient := ⟨0, 1⟩

/-- A connected mcp-role handle used by the server examples. -/
def wsM : WClient := ⟨1, 1⟩

/-- A second connected mcp-role handle used by the C8 example. -/
def wsM2 : WClient := ⟨2, 1⟩

/-- Registry of the C7 example: one session with one browser and one
mcp client. -/
def c7sessions : List (String × Session) := [("ABCDEF", ⟨[wsB], [wsM], 0⟩)]

/-- Category returned by the successful store call of the C7 example. -/
def c7cat : Category := ⟨"c1", "Mobs", true, []⟩

/-- Registry of the C8 example: one browser and two mcp clients. -/
def c8sessions : List (String × Session) := [("ABCDEF", ⟨[wsB], [wsM, wsM2], 7⟩)]

/-- Registry of the C9 example: one session whose only member is one
browser. -/
def c9sessions : List (String × Session) := [("ABCDEF", ⟨[wsB], [], 5⟩)]

/-- Registry of the C9 witness sweep example: one already-empty
session created at time 5. -/
def c9empty : List (String × Session) := [("GONE42", ⟨[], [], 5⟩)]

/-- Original chunk of the C10 example (user-facing id "x"). -/
def c10orig : Chunk := ⟨"u1", "x", "t", emptyMeta, []⟩

/-- Pre-existing conflicting chunk of the C10 example (id "x_copy"). -/
def c10other : Chunk := ⟨"u2", "x_copy", "t2", emptyMeta, []⟩

/-- Project of the C10 example: both chunks live in category "cat1". -/
def c10proj : StoreProject := ⟨"p1", "P", "", [⟨"cat1", "A", true, [c10orig, c10other]⟩]⟩

/-- Commits of the C6 witness: two mutations with ascending
timestamps. -/
def c6muts : List Commit :=
  [⟨"c1", 1, "browser", "create_category", "added Mobs"⟩,
   ⟨"c2", 3, "mcp", "add_chunk", "added creeper"⟩]

/-- Membership after an upsert comes from the new entry or the old
list. -/
theorem mem_upsert {m : List (String × α)} {x : String × α}
    (h : x ∈ upsert k v m) : x = (k, v) ∨ x ∈ m := by
  induction m with
  | nil => simpa [upsert] using h
  | cons p rest ih =>
    by_cases hp : p.1 = k
    · rw [upsert, if_pos hp] at h
      rcases List.mem_cons.mp h with h1 | h1
      · exact Or.inl h1
      · exact Or.inr (List.mem_cons_of_mem _ h1)
    · rw [upsert, if_neg hp] at h
      rcases List.mem_cons.mp h with h1 | h1
      · exact Or.inr (h1 ▸ List.mem_cons_self _ _)
      · rcases ih h1 with h2 | h2
        · exact Or.inl h2
        · exact Or.inr (List.mem_cons_of_mem _ h2)

/-- Upserting preserves key uniqueness. -/
theorem pairwiseKeys_upsert {m : List (String × α)} (h : PairwiseKeys m) :
    PairwiseKeys (upsert k v m) := by
  induction m with
  | nil => simp [upsert, PairwiseKeys]
  | cons p rest ih =>
    rw [PairwiseKeys, List.pairwise_cons] at h
    obtain ⟨hp, hrest⟩ := h
    by_cases hpk : p.1 = k
    · rw [upsert, if_pos hpk]
      rw [PairwiseKeys, List.pairwise_cons]
      exact ⟨fun q hq => hpk ▸ hp q hq, hrest⟩
    · rw [upsert, if_neg hpk]
      rw [PairwiseKeys, List.pairwise_cons]
      refine ⟨fun q hq => ?_, ih hrest⟩
      rcases mem_upsert hq with h1 | h1
      · rw [h1]; exact hpk
      · exact hp q h1

/-- Folding upserts over any entry list preserves key uniqueness. -/
theorem pairwiseKeys_foldl_upsert (l : List (String × α)) (m : List (String × α))
    (h : PairwiseKeys m) :
    PairwiseKeys (l.foldl (fun m p => upsert p.1 p.2 m) m) := by
  induction l generalizing m with
  | nil => exact h
  | cons p rest ih => exact ih _ (pairwiseKeys_upsert h)

/-- Key uniqueness of every JS-Map embedding. -/
theorem pairwiseKeys_mkMap (l : List (String × α)) : PairwiseKeys (mkMap l) :=
  pairwiseKeys_foldl_upsert l [] (List.Pairwise.nil)

/-- Looking up the key of a present entry succeeds. -/
theorem alookup_isSome_of_mem {m : List (String × α)} {x : String × α}
    (h : x ∈ m) : (alookup x.1 m).isSome = true := by
  induction m with
  | nil => cases h
  | cons p rest ih =>
    by_cases hp : p.1 = x.1
    · simp [alookup, hp]
    · rcases List.mem_cons.mp h with h1 | h1
      · exact absurd (h1 ▸ rfl) hp
      · simp [alookup, hp, ih h1]

/-- In a key-unique association list, lookup of a present entry's key
returns exactly that entry's value. -/
theorem alookup_eq_of_mem {m : List (String × α)} {x : String × α}
    (hm : PairwiseKeys m) (h : x ∈ m) : alookup x.1 m = some x.2 := by
  induction m with
  | nil => cases h
  | cons p rest ih =>
    rw [PairwiseKeys, List.pairwise_cons] at hm
    obtain ⟨hp, hrest⟩ := hm
    rcases List.mem_cons.mp h with h1 | h1
    · rw [h1, alookup, if_pos rfl]
    · rw [alookup, if_neg (hp x h1)]
      exact ih hrest h1

/-- A successful lookup exhibits a member. -/
theorem mem_of_alookup {m : List (String × α)}
    (h : alookup k m = some v) : (k, v) ∈ m := by
  induction m with
  | nil => simp [alookup] at h
  | cons p rest ih =>
    by_cases hp : p.1 = k
    · rw [alookup, if_pos hp] at h
      have : p = (k, v) := Prod.ext hp (Option.some.inj h)
      exact this ▸ List.mem_cons_self _ _
    · rw [alookup, if_neg hp] at h
      exact List.mem_cons_of_mem _ (ih h)

/-- Lookup of an absent key fails. -/
theorem alookup_eq_none {m : List (String × α)}
    (h : ∀ p ∈ m, p.1 ≠ k) : alookup k m = none := by
  induction m with
  | nil => rfl
  | cons p rest ih =>
    rw [alookup, if_neg (h p (List.mem_cons_self _ _))]
    exact ih (fun q hq => h q (List.mem_cons_of_mem _ hq))

/-- Lookup after upserting the same key. -/
theorem alookup_upsert_self (k : String) (v : α) (m : List (String × α)) :
    alookup k (upsert k v m) = some v := by
  induction m with
  | nil => simp [upsert, alookup]
  | cons p rest ih =>
    by_cases hp : p.1 = k
    · rw [upsert, if_pos hp, alookup, if_pos rfl]
    · rw [upsert, if_neg hp, alookup, if_neg hp]
      exact ih

/-- Lookup after upserting a different key. -/
theorem alookup_upsert_ne {k' k : String} (v : α) (m : List (String × α))
    (h : k' ≠ k) : alookup k (upsert k' v m) = alookup k m := by
  induction m with
  | nil => simp [upsert, alookup, h]
  | cons p rest ih =>
    by_cases hp : p.1 = k'
    · rw [upsert, if_pos hp, alookup, if_neg h, alookup, if_neg (hp ▸ h)]
    · by_cases hpk : p.1 = k
      · rw [upsert, if_neg hp, alookup, if_pos hpk, alookup, if_pos hpk]
      · rw [upsert, if_neg hp, alookup, if_neg hpk, alookup, if_neg hpk]
        exact ih

/-- Deleting a key from the registry makes its lookup fail. -/
theorem alookup_mapDelete_self (k : String) (m : List (String × Session)) :
    alookup k (mapDelete k m) = none := by
  refine alookup_eq_none (fun p hp => ?_)
  have := List.mem_filter.mp hp
  simpa using this.2

/-- Lookup in a filtered key-unique association list: the entry
survives when the predicate holds of it. -/
theorem alookup_filter_pos {m : List (String × α)} {p : String × α → Bool}
    (hm : PairwiseKeys m) (h : alookup k m = some v) (hp : p (k, v) = true) :
    alookup k (m.filter p) = some v := by
  induction m with
  | nil => simp [alookup] at h
  | cons q rest ih =>
    rw [PairwiseKeys, List.pairwise_cons] at hm
    obtain ⟨hq, hrest⟩ := hm
    by_cases hqk : q.1 = k
    · rw [alookup, if_pos hqk] at h
      have hqv : q = (k, v) := Prod.ext hqk (Option.some.inj h)
      rw [List.filter_cons, if_pos (hqv ▸ hp), alookup, if_pos hqk, hqv]
    · rw [alookup, if_neg hqk] at h
      rw [List.filter_cons]
      by_cases hpq : p q = true
      · rw [if_pos hpq, alookup, if_neg hqk]
        exact ih hrest h
      · rw [if_neg hpq]
        exact ih hrest h

/-- Lookup in a filtered key-unique association list: the entry is gone
when the predicate fails of it. -/
theorem alookup_filter_neg {m : List (String × α)} {p : String × α → Bool}
    (hm : PairwiseKeys m) (h : alookup k m = some v) (hp : p (k, v) = false) :
    alookup k (m.filter p) = none := by
  induction m with
  | nil => simp [alookup] at h
  | cons q rest ih =>
    rw [PairwiseKeys, List.pairwise_cons] at hm
    obtain ⟨hq, hrest⟩ := hm
    by_cases hqk : q.1 = k
    · rw [alookup, if_pos hqk] at h
      have hqv : q = (k, v) := Prod.ext hqk (Option.some.inj h)
      rw [List.filter_cons, if_neg (by rw [hqv, hp]; simp)]
      refine alookup_eq_none (fun r hr => ?_)
      exact (hqk ▸ hq r (List.mem_of_mem_filter hr)).symm
    · rw [alookup, if_neg hqk] at h
      rw [List.filter_cons]
      by_cases hpq : p q = true
      · rw [if_pos hpq, alookup, if_neg hqk]
        exact ih hrest h
      · rw [if_neg hpq]
        exact ih hrest h

/-- Filtering by a key-level predicate that accepts the looked-up key
does not change the lookup. -/
theorem alookup_filter_key {m : List (String × α)} {p : String × α → Bool}
    (hp : ∀ v : α, p (k, v) = true) : alookup k (m.filter p) = alookup k m := by
  induction m with
  | nil => rfl
  | cons q rest ih =>
    by_cases hqk : q.1 = k
    · have hq : q = (k, q.2) := Prod.ext hqk rfl
      rw [List.filter_cons, if_pos (by rw [hq]; exact hp q.2), alookup, if_pos hqk,
        alookup, if_pos hqk]
    · rw [List.filter_cons]
      by_cases hpq : p q = true
      · rw [if_pos hpq, alookup, if_neg hqk, alookup, if_neg hqk]
        exact ih
      · rw [if_neg hpq, alookup, if_neg hqk]
        exact ih

/-- A chunk compared with itself yields no field changes. -/
theorem chunkChanges_self (ch : Chunk) : chunkChanges ch ch = [] := by
  simp [chunkChanges]

/-- The change list is empty exactly when none of the compared fields
differs. -/
theorem chunkChanges_eq_nil_iff (prevCh currCh : Chunk) :
    chunkChanges prevCh currCh = []
      ↔ (prevCh.id = currCh.id ∧ prevCh.text = currCh.text
         ∧ prevCh.metadata.page_title = currCh.metadata.page_title
         ∧ prevCh.metadata.source = currCh.metadata.source
         ∧ prevCh.metadata.license = currCh.metadata.license) := by
  by_cases h1 : prevCh.id = currCh.id <;>
    by_cases h2 : prevCh.text = currCh.text <;>
      by_cases h3 : prevCh.metadata.page_title = currCh.metadata.page_title <;>
        by_cases h4 : prevCh.metadata.source = currCh.metadata.source <;>
          by_cases h5 : prevCh.metadata.license = currCh.metadata.license <;>
            simp [chunkChanges, h1, h2, h3, h4, h5]

/-- No modified record is generated for an unchanged chunk. -/
theorem chunkModRec_self (n : String) (ch : Chunk) : chunkModRec n ch ch = none := by
  simp [chunkModRec, chunkChanges_self]

/-- Diffing the category map of a snapshot against itself yields no
category deletions. -/
theorem catDeletionRecs_self (s : Snapshot) : catDeletionRecs s s = [] := by
  rw [catDeletionRecs, List.filterMap_eq_nil_iff]
  intro p hp
  rw [if_pos (alookup_isSome_of_mem hp)]

/-- Diffing the category map of a snapshot against itself yields no
category additions. -/
theorem catAdditionRecs_self (s : Snapshot) : catAdditionRecs s s = [] := by
  rw [catAdditionRecs, List.filterMap_eq_nil_iff]
  intro p hp
  rw [if_pos (alookup_isSome_of_mem hp)]

/-- The per-category block of a category diffed against itself is
empty. -/
theorem catBlock_self {s : Snapshot} {p : String × Category}
    (hp : p ∈ catMap s) : catBlock (catMap s) p = [] := by
  have hl : alookup p.1 (catMap s) = some p.2 :=
    alookup_eq_of_mem (pairwiseKeys_mkMap _) hp
  simp only [catBlock, hl]
  have hren : ¬(p.2.name ≠ p.2.name) := fun h => h rfl
  rw [if_neg hren]
  have hdels : (chunkMap p.2).filterMap (fun q =>
      if (alookup q.1 (chunkMap p.2)).isSome = true then none
      else some ({ type := DiffType.deleted, text := chunkRemovedText q.2 p.2.name } : DiffRec)) = [] := by
    rw [List.filterMap_eq_nil_iff]
    intro q hq
    rw [if_pos (alookup_isSome_of_mem hq)]
  have hadds : (chunkMap p.2).filterMap (fun q =>
      if (alookup q.1 (chunkMap p.2)).isSome = true then none
      else some ({ type := DiffType.added, text := chunkAddedText q.2 p.2.name } : DiffRec)) = [] := by
    rw [List.filterMap_eq_nil_iff]
    intro q hq
    rw [if_pos (alookup_isSome_of_mem hq)]
  have hmods : (chunkMap p.2).filterMap (fun q =>
      match alookup q.1 (chunkMap p.2) with
      | none => none
      | some prevCh => chunkModRec p.2.name prevCh q.2) = [] := by
    rw [List.filterMap_eq_nil_iff]
    intro q hq
    have hpw : PairwiseKeys (chunkMap p.2) := pairwiseKeys_mkMap _
    rw [alookup_eq_of_mem hpw hq]
    exact chunkModRec_self _ _
  simp only [hdels, hadds, hmods, List.append_nil, List.nil_append]

/-- The third loop of the differ yields nothing for identical
snapshots. -/
theorem bothCatRecs_self (s : Snapshot) : bothCatRecs s s = [] := by
  rw [bothCatRecs, List.flatMap_eq_nil_iff]
  exact fun p hp => catBlock_self hp

/-- An entry whose owning category did not change is skipped by the
reconciliation loop. -/
theorem reconStep_id {allPrev : List (String × MoveInfo)} {e : String × MoveInfo}
    (h : moveCond allPrev e = false) (s : List DiffRec) :
    reconStep allPrev s e = s := by
  cases hl : alookup e.1 allPrev with
  | none => simp [reconStep, hl]
  | some prevInfo =>
    rw [moveCond, hl] at h
    simp only [decide_eq_false_iff_not, Decidable.not_not] at h
    simp [reconStep, hl, h]

/-- The reconciliation fold is the identity when no entry moved. -/
theorem foldl_reconStep_id {allPrev : List (String × MoveInfo)}
    (entries : List (String × MoveInfo)) (base : List DiffRec)
    (h : ∀ e ∈ entries, moveCond allPrev e = false) :
    entries.foldl (reconStep allPrev) base = base := by
  induction entries generalizing base with
  | nil => rfl
  | cons e rest ih =>
    rw [List.foldl_cons, reconStep_id (h e (List.mem_cons_self _ _))]
    exact ih base (fun e' he' => h e' (List.mem_cons_of_mem _ he'))

/-- Identical snapshots generate no move entries. -/
theorem moveCond_self (s : Snapshot) :
    ∀ e ∈ allChunkMap s, moveCond (allChunkMap s) e = false := by
  intro e he
  have hpw : PairwiseKeys (allChunkMap s) := pairwiseKeys_mkMap _
  rw [moveCond, alookup_eq_of_mem hpw he]
  simp

/-- In the absence of cross-category moves the reconciliation pass
leaves the diff untouched: the output is the plain concatenation of the
category-deletion, category-addition and per-category passes. -/
theorem computeDiff_noMove {prev curr : Snapshot} (h : noMoveB prev curr = true) :
    computeDiff (some prev) curr
      = catDeletionRecs prev curr ++ catAdditionRecs prev curr ++ bothCatRecs prev curr := by
  rw [noMoveB, List.all_eq_true] at h
  rw [computeDiff]
  refine foldl_reconStep_id _ _ (fun e he => ?_)
  have := h e he
  simpa using this

/-- C1: the cross-category reconciliation of `App._computeDiff` is
claimed to replace the independently generated added/deleted pair of a
moved chunk by a single move record, for every pair of snapshots.  On
the concrete pair below — chunk "c1" moved from category "A" into the
freshly added category "B" — the code instead keeps the deleted record
for the chunk (no chunk-level added record was ever generated, so the
index arithmetic of the splice removes the unrelated category-added
record).  This theorem evaluates the embedded differ at that failing
input. -/
theorem c1_move_reconciliation_bug :
    computeDiff (some c1prev) c1curr
      = [⟨DiffType.deleted, "Chunk \"c1\" removed from \"A\""⟩,
         ⟨DiffType.modified, "Chunk \"c1\" moved: \"A\" → \"B\""⟩]
    ∧ (⟨DiffType.deleted, "Chunk \"c1\" removed from \"A\""⟩ : DiffRec)
        ∈ computeDiff (some c1prev) c1curr
    ∧ (⟨DiffType.added, "Category \"B\" added (1 chunks)"⟩ : DiffRec)
        ∉ computeDiff (some c1prev) c1curr :=
  ⟨by decide, by decide, by decide⟩

/-- C2 counterexample: the claim orders all category modifications
before every chunk record, but the code emits each category's rename
record interleaved with that category's chunk records.  On the concrete
pair below (a chunk text change in category "X" and a rename of the
empty category "Y1" to "Y2") the code output has the chunk record
between the two category-modification positions required by the claim. -/
theorem c2_claim_counterexample :
    computeDiff (some c2prev) c2curr
      = [⟨DiffType.modified, "Chunk \"c\" in \"X\": text changed (1 → 1 chars)"⟩,
         ⟨DiffType.modified, "Category renamed: \"Y1\" → \"Y2\""⟩]
    ∧ claimOrderedDiff c2prev c2curr
      = [⟨DiffType.modified, "Category renamed: \"Y1\" → \"Y2\""⟩,
         ⟨DiffType.modified, "Chunk \"c\" in \"X\": text changed (1 → 1 chars)"⟩]
    ∧ computeDiff (some c2prev) c2curr ≠ claimOrderedDiff c2prev c2curr :=
  ⟨by decide, by decide, by decide⟩

/-- C2 amended: for snapshot pairs without cross-category moves the
differ output is exactly the category deletions, then the category
additions, then — per current-snapshot category present in both
snapshots, in encounter order — that category's rename record followed
by its chunk deletions, additions and modifications (the per-category
blocks of `bothCatRecs`); move records would be appended at the very
end by the reconciliation pass, which is the identity here. -/
theorem c2_amended_order (prev curr : Snapshot) (h : noMoveB prev curr = true) :
    computeDiff (some prev) curr
      = catDeletionRecs prev curr ++ catAdditionRecs prev curr ++ bothCatRecs prev curr :=
  computeDiff_noMove h

/-- C2 witness: the amended ordering theorem applied to the concrete
snapshot pair of the counterexample, which has no cross-category
moves. -/
theorem c2_amended_order_witness :
    noMoveB c2prev c2curr = true
    ∧ computeDiff (some c2prev) c2curr
      = catDeletionRecs c2prev c2curr ++ catAdditionRecs c2prev c2curr
        ++ bothCatRecs c2prev c2curr :=
  ⟨by decide, c2_amended_order c2prev c2curr (by decide)⟩

/-- C3 counterexample: chunk "u1" sits in the same category "x" of both
snapshots and its metadata record in the sense of the claim (three
reserved fields plus the custom key/value pairs) differs — the custom
field lvl changed from 1 to 2 — yet the differ emits no record at all,
because it compares only the fixed three-field metadata object and
never the custom fields. -/
theorem c3_claim_counterexample :
    alookup "x" (catMap c3prev) = some c3catP
    ∧ alookup "x" (catMap c3curr) = some c3catQ
    ∧ alookup "u1" (chunkMap c3catP) = some c3chunkP
    ∧ alookup "u1" (chunkMap c3catQ) = some c3chunkQ
    ∧ claimMetaRecord c3chunkP ≠ claimMetaRecord c3chunkQ
    ∧ computeDiff (some c3prev) c3curr = [] :=
  ⟨by decide, by decide, by decide, by decide, by decide, by decide⟩

/-- C3 amended: a modified record for a same-category chunk pair is
generated exactly when the user-facing id, the text, or one of the
three reserved metadata fields differs — changes confined to the custom
key/value pairs are not detected.  The record is of modified kind and
enumerates the changed fields (text as a character-count delta), and in
the absence of cross-category moves it appears in the differ output. -/
theorem c3_amended_modified :
    (∀ (catName : String) (prevCh currCh : Chunk),
      (chunkModRec catName prevCh currCh).isSome = true
        ↔ (prevCh.id ≠ currCh.id ∨ prevCh.text ≠ currCh.text
           ∨ prevCh.metadata.page_title ≠ currCh.metadata.page_title
           ∨ prevCh.metadata.source ≠ currCh.metadata.source
           ∨ prevCh.metadata.license ≠ currCh.metadata.license))
    ∧ (∀ (catName : String) (prevCh currCh : Chunk) (r : DiffRec),
      chunkModRec catName prevCh currCh = some r →
      r.type = DiffType.modified
      ∧ r.text = "Chunk \"" ++ currCh.id ++ "\" in \"" ++ catName ++ "\": "
          ++ String.intercalate ", " (chunkChanges prevCh currCh))
    ∧ (∀ (prev curr : Snapshot) (cid : String) (prevCat currCat : Category)
        (uid : String) (prevCh currCh : Chunk) (r : DiffRec),
      noMoveB prev curr = true →
      alookup cid (catMap prev) = some prevCat →
      alookup cid (catMap curr) = some currCat →
      alookup uid (chunkMap prevCat) = some prevCh →
      alookup uid (chunkMap currCat) = some currCh →
      chunkModRec currCat.name prevCh currCh = some r →
      r ∈ computeDiff (some prev) curr) := by
  refine ⟨?_, ?_, ?_⟩
  · intro catName prevCh currCh
    by_cases h : chunkChanges prevCh currCh = []
    · obtain ⟨e1, e2, e3, e4, e5⟩ := (chunkChanges_eq_nil_iff prevCh currCh).mp h
      simp [chunkModRec, h, e1, e2, e3, e4, e5]
    · have hc : ¬(prevCh.id = currCh.id ∧ prevCh.text = currCh.text
          ∧ prevCh.metadata.page_title = currCh.metadata.page_title
          ∧ prevCh.metadata.source = currCh.metadata.source
          ∧ prevCh.metadata.license = currCh.metadata.license) :=
        fun hcnj => h ((chunkChanges_eq_nil_iff prevCh currCh).mpr hcnj)
      have hne : ¬(chunkChanges prevCh currCh).isEmpty = true := by
        simpa [List.isEmpty_iff] using h
      simp only [chunkModRec, if_neg hne, Option.isSome_some, true_iff]
      tauto
  · intro catName prevCh currCh r h
    by_cases hE : (chunkChanges prevCh currCh).isEmpty = true
    · rw [chunkModRec] at h
      simp [hE] at h
    · rw [chunkModRec] at h
      simp only [if_neg hE, Option.some.injEq] at h
      rw [← h]
      exact ⟨rfl, rfl⟩
  · intro prev curr cid prevCat currCat uid prevCh currCh r hnm h1 h2 h3 h4 h5
    rw [computeDiff_noMove hnm]
    refine List.mem_append_right _ ?_
    rw [bothCatRecs]
    refine List.mem_flatMap.mpr ⟨(cid, currCat), mem_of_alookup h2, ?_⟩
    have hblock : catBlock (catMap prev) (cid, currCat)
        = (if prevCat.name ≠ currCat.name then
            [⟨DiffType.modified, catRenamedText prevCat.name currCat.name⟩] else [])
          ++ (chunkMap prevCat).filterMap (fun q =>
            if (alookup q.1 (chunkMap currCat)).isSome = true then none
            else some ⟨DiffType.deleted, chunkRemovedText q.2 currCat.name⟩)
          ++ (chunkMap currCat).filterMap (fun q =>
            if (alookup q.1 (chunkMap prevCat)).isSome = true then none
            else some ⟨DiffType.added, chunkAddedText q.2 currCat.name⟩)
          ++ (chunkMap currCat).filterMap (fun q =>
            match alookup q.1 (chunkMap prevCat) with
            | none => none
            | some prevCh => chunkModRec currCat.name prevCh q.2) := by
      simp [catBlock, h1]
    rw [hblock]
    refine List.mem_append_right _ ?_
    refine List.mem_filterMap.mpr ⟨(uid, currCh), mem_of_alookup h4, ?_⟩
    simp [h3, h5]

/-- C3 witness: the amended theorem applied to a concrete chunk whose
text changed from 2 to 3 characters inside category "K". -/
theorem c3_amended_modified_witness :
    chunkModRec "K" w3prevCh w3currCh
      = some ⟨DiffType.modified, "Chunk \"w\" in \"K\": text changed (2 → 3 chars)"⟩
    ∧ (⟨DiffType.modified, "Chunk \"w\" in \"K\": text changed (2 → 3 chars)"⟩ : DiffRec)
        ∈ computeDiff (some w3prev) w3curr :=
  ⟨by decide,
   c3_amended_modified.2.2 w3prev w3curr "k" w3catP w3catQ "u9" w3prevCh w3currCh
     ⟨DiffType.modified, "Chunk \"w\" in \"K\": text changed (2 → 3 chars)"⟩
     (by decide) (by decide) (by decide) (by decide) (by decide) (by decide)⟩

/-- C4: diffing a snapshot against itself (or a deep-equal copy, which
is the same value in this embedding) yields the empty record list. -/
theorem c4_diff_self_empty (S : Snapshot) : computeDiff (some S) S = [] := by
  have hnm : noMoveB S S = true := by
    rw [noMoveB, List.all_eq_true]
    intro e he
    simp [moveCond_self S e he]
  rw [computeDiff_noMove hnm, catDeletionRecs_self, catAdditionRecs_self, bothCatRecs_self]
  rfl

/-- Membership in the reserved-keys list, spelled out. -/
theorem contains_standard_iff (s : String) :
    STANDARD_META.contains s = true ↔ (s = "page_title" ∨ s = "source" ∨ s = "license") := by
  constructor
  · intro h
    by_cases h1 : s = "page_title"
    · exact Or.inl h1
    by_cases h2 : s = "source"
    · exact Or.inr (Or.inl h2)
    by_cases h3 : s = "license"
    · exact Or.inr (Or.inr h3)
    rw [show STANDARD_META.contains s = false by simp [STANDARD_META, List.contains, h1, h2, h3]] at h
    cases h
  · intro h
    rcases h with h | h | h <;> simp [STANDARD_META, List.contains, h]

/-- Lookup through the export fold of custom fields: the custom entries
shadow the initial object, entry by entry, when the custom keys are
unique, non-empty and trim-invariant. -/
theorem foldl_upsert_or (cs : List (String × String)) :
    ∀ (m0 : List (String × String)) (k : String), PairwiseKeys cs →
    (∀ p ∈ cs, p.1 ≠ "" ∧ jsTrim p.1 = p.1) →
    alookup k (cs.foldl (fun m cf =>
        if cf.1 ≠ "" ∧ jsTrim cf.1 ≠ "" then upsert (jsTrim cf.1) cf.2 m else m) m0)
      = (alookup k cs).or (alookup k m0) := by
  induction cs with
  | nil =>
    intro m0 k _ _
    simp [alookup]
  | cons cf rest ih =>
    intro m0 k hpw hcs
    rw [PairwiseKeys, List.pairwise_cons] at hpw
    obtain ⟨hcf, hrest⟩ := hpw
    obtain ⟨hne, htrim⟩ := hcs cf (List.mem_cons_self _ _)
    have hcond : cf.1 ≠ "" ∧ jsTrim cf.1 ≠ "" := ⟨hne, fun h => hne (htrim.symm.trans h)⟩
    rw [List.foldl_cons, if_pos hcond, htrim]
    rw [ih (upsert cf.1 cf.2 m0) k hrest (fun p hp => hcs p (List.mem_cons_of_mem _ hp))]
    by_cases hk : cf.1 = k
    · rw [alookup, if_pos hk]
      rw [alookup_eq_none (fun p hp => fun hpk => hcf p hp (hk ▸ hpk ▸ rfl))]
      rw [hk, alookup_upsert_self]
      simp [Option.none_or]
    · rw [alookup, if_neg hk, alookup_upsert_ne cf.2 m0 hk]

/-- One-record round trip: exporting an imported flat record recovers
its id, its text and its flat metadata object (as a lookup function),
for a well-formed record: key-unique metadata, the three reserved keys
present, custom keys non-empty and trim-invariant. -/
theorem c5_chunk_roundtrip (u : String) (x : FlatRecord)
    (hpw : PairwiseKeys x.metadata)
    (hres : (alookup "page_title" x.metadata).isSome = true
      ∧ (alookup "source" x.metadata).isSome = true
      ∧ (alookup "license" x.metadata).isSome = true)
    (hcust : ∀ p ∈ x.metadata, STANDARD_META.contains p.1 = false →
      p.1 ≠ "" ∧ jsTrim p.1 = p.1) :
    (exportChunk (importChunk u x)).id = x.id
    ∧ (exportChunk (importChunk u x)).text = x.text
    ∧ ∀ k, alookup k (exportChunk (importChunk u x)).metadata = alookup k x.metadata := by
  refine ⟨rfl, rfl, fun k => ?_⟩
  have hgoal : (exportChunk (importChunk u x)).metadata
      = (x.metadata.filter (fun p => !STANDARD_META.contains p.1)).foldl
          (fun m cf => if cf.1 ≠ "" ∧ jsTrim cf.1 ≠ "" then upsert (jsTrim cf.1) cf.2 m else m)
          [("page_title", getMetaD x.metadata "page_title"),
           ("source", getMetaD x.metadata "source"),
           ("license", getMetaD x.metadata "license")] := rfl
  rw [hgoal]
  have hcspw : PairwiseKeys (x.metadata.filter (fun p => !STANDARD_META.contains p.1)) :=
    List.Pairwise.sublist (List.filter_sublist _) hpw
  have hcsok : ∀ p ∈ x.metadata.filter (fun p => !STANDARD_META.contains p.1),
      p.1 ≠ "" ∧ jsTrim p.1 = p.1 := by
    intro p hp
    have hm := List.mem_filter.mp hp
    exact hcust p hm.1 (by simpa using hm.2)
  rw [foldl_upsert_or _ _ k hcspw hcsok]
  have hcs_keys : ∀ p ∈ x.metadata.filter (fun p => !STANDARD_META.contains p.1),
      STANDARD_META.contains p.1 = false := by
    intro p hp
    have hm := List.mem_filter.mp hp
    simpa using hm.2
  by_cases h1 : k = "page_title"
  · subst h1
    obtain ⟨v, hv⟩ := Option.isSome_iff_exists.mp hres.1
    rw [alookup_eq_none (fun p hp => fun hpk => by
      have := hcs_keys p hp
      rw [hpk] at this
      simp [STANDARD_META, List.contains] at this)]
    rw [Option.none_or]
    simp [alookup, getMetaD, hv]
  by_cases h2 : k = "source"
  · subst h2
    obtain ⟨v, hv⟩ := Option.isSome_iff_exists.mp hres.2.1
    rw [alookup_eq_none (fun p hp => fun hpk => by
      have := hcs_keys p hp
      rw [hpk] at this
      simp [STANDARD_META, List.contains] at this)]
    rw [Option.none_or]
    simp [alookup, getMetaD, hv]
  by_cases h3 : k = "license"
  · subst h3
    obtain ⟨v, hv⟩ := Option.isSome_iff_exists.mp hres.2.2
    rw [alookup_eq_none (fun p hp => fun hpk => by
      have := hcs_keys p hp
      rw [hpk] at this
      simp [STANDARD_META, List.contains] at this)]
    rw [Option.none_or]
    simp [alookup, getMetaD, hv]
  · have hbase : alookup k
        [("page_title", getMetaD x.metadata "page_title"),
         ("source", getMetaD x.metadata "source"),
         ("license", getMetaD x.metadata "license")] = (none : Option String) := by
      rw [alookup, if_neg (fun h => h1 h.symm), alookup, if_neg (fun h => h2 h.symm),
        alookup, if_neg (fun h => h3 h.symm)]
      rfl
    rw [hbase, Option.or_none]
    refine alookup_filter_key (fun v => ?_)
    have hkc : STANDARD_META.contains k = false := by
      rw [← Bool.not_eq_true]
      intro hc
      rcases (contains_standard_iff k).mp hc with h | h | h
      · exact h1 h
      · exact h2 h
      · exact h3 h
    rw [hkc]
    rfl

/-- Record-list round trip of the import loop followed by export. -/
theorem c5_chunks_roundtrip (fresh : Nat → String) (xs : List FlatRecord) (i : Nat)
    (h1 : ∀ x ∈ xs, PairwiseKeys x.metadata)
    (h2 : ∀ x ∈ xs, (alookup "page_title" x.metadata).isSome = true
      ∧ (alookup "source" x.metadata).isSome = true
      ∧ (alookup "license" x.metadata).isSome = true)
    (h3 : ∀ x ∈ xs, ∀ p ∈ x.metadata, STANDARD_META.contains p.1 = false →
      p.1 ≠ "" ∧ jsTrim p.1 = p.1) :
    List.Forall₂ (fun (x y : FlatRecord) => y.id = x.id ∧ y.text = x.text
        ∧ ∀ k, alookup k y.metadata = alookup k x.metadata)
      xs ((importChunks fresh i xs).map exportChunk) := by
  induction xs generalizing i with
  | nil => exact List.Forall₂.nil
  | cons x rest ih =>
    rw [importChunks, List.map_cons]
    refine List.Forall₂.cons ?_ ?_
    · exact c5_chunk_roundtrip (fresh i) x (h1 x (List.mem_cons_self _ _))
        (h2 x (List.mem_cons_self _ _)) (h3 x (List.mem_cons_self _ _))
    · exact ih (i + 1) (fun y hy => h1 y (List.mem_cons_of_mem _ hy))
        (fun y hy => h2 y (List.mem_cons_of_mem _ hy))
        (fun y hy => h3 y (List.mem_cons_of_mem _ hy))

/-- C5: export after import reproduces every record of a well-formed
flat input array — the user-facing id, the text, and the flat metadata
object (compared as a lookup function, since a JS object is unordered)
are recovered unchanged; the freshly assigned stable identifiers are
ignored.  Well-formed means: each record's metadata object has unique
keys, carries the three reserved keys, and its custom keys are
non-empty and trim-invariant. -/
theorem c5_roundtrip (fresh : Nat → String) (pId catId createdAt name : String)
    (xs : List FlatRecord)
    (h1 : ∀ x ∈ xs, PairwiseKeys x.metadata)
    (h2 : ∀ x ∈ xs, (alookup "page_title" x.metadata).isSome = true
      ∧ (alookup "source" x.metadata).isSome = true
      ∧ (alookup "license" x.metadata).isSome = true)
    (h3 : ∀ x ∈ xs, ∀ p ∈ x.metadata, STANDARD_META.contains p.1 = false →
      p.1 ≠ "" ∧ jsTrim p.1 = p.1) :
    List.Forall₂ (fun (x y : FlatRecord) => y.id = x.id ∧ y.text = x.text
        ∧ ∀ k, alookup k y.metadata = alookup k x.metadata)
      xs (exportJSON (importProject fresh pId catId createdAt name xs)) := by
  have hexp : exportJSON (importProject fresh pId catId createdAt name xs)
      = (importChunks fresh 0 xs).map exportChunk := by
    simp [exportJSON, importProject]
  rw [hexp]
  exact c5_chunks_roundtrip fresh xs 0 h1 h2 h3

/-- C5 witness: the round-trip theorem applied to a concrete two-record
array with reserved and custom metadata keys in mixed order. -/
theorem c5_roundtrip_witness :
    (∀ x ∈ [c5rec1, c5rec2], PairwiseKeys x.metadata)
    ∧ (∀ x ∈ [c5rec1, c5rec2], (alookup "page_title" x.metadata).isSome = true
      ∧ (alookup "source" x.metadata).isSome = true
      ∧ (alookup "license" x.metadata).isSome = true)
    ∧ (∀ x ∈ [c5rec1, c5rec2], ∀ p ∈ x.metadata, STANDARD_META.contains p.1 = false →
      p.1 ≠ "" ∧ jsTrim p.1 = p.1)
    ∧ List.Forall₂ (fun (x y : FlatRecord) => y.id = x.id ∧ y.text = x.text
        ∧ ∀ k, alookup k y.metadata = alookup k x.metadata)
      [c5rec1, c5rec2]
      (exportJSON (importProject (fun n => toString n) "p1" "cat1" "t0" "proj" [c5rec1, c5rec2])) :=
  ⟨by decide, by decide, by decide,
   c5_roundtrip (fun n => toString n) "p1" "cat1" "t0" "proj" [c5rec1, c5rec2]
     (by decide) (by decide) (by decide)⟩

/-- Length of the last-n-elements suffix. -/
theorem length_takeLast (n : Nat) (l : List α) : (takeLast n l).length = min n l.length := by
  rw [takeLast, List.length_drop]
  omega

/-- Short lists are their own last-n suffix. -/
theorem takeLast_of_le {n : Nat} {l : List α} (h : l.length ≤ n) : takeLast n l = l := by
  rw [takeLast, Nat.sub_eq_zero_of_le h, List.drop_zero]

/-- Dropping from an append, within the left part. -/
theorem drop_append_le {k : Nat} (X Y : List α) (h : k ≤ X.length) :
    (X ++ Y).drop k = X.drop k ++ Y := by
  induction X generalizing k with
  | nil =>
    have : k = 0 := Nat.le_zero.mp h
    rw [this]
    rfl
  | cons a xs ih =>
    cases k with
    | zero => rfl
    | succ k' =>
      rw [List.cons_append, List.drop_succ_cons, List.drop_succ_cons]
      exact ih (Nat.le_of_succ_le_succ h)

/-- The last n of an append land inside the right part when it is long
enough. -/
theorem takeLast_append_ge (n : Nat) (X Y : List α) (h : n ≤ Y.length) :
    takeLast n (X ++ Y) = takeLast n Y := by
  rw [takeLast, takeLast, List.length_append]
  have hidx : X.length + Y.length - n = X.length + (Y.length - n) := by omega
  rw [hidx, List.drop_append]

/-- The last n of an append keep the whole right part when it is
short. -/
theorem takeLast_append_lt (n : Nat) (X Y : List α) (h : Y.length ≤ n) :
    takeLast n (X ++ Y) = takeLast (n - Y.length) X ++ Y := by
  rw [takeLast, takeLast, List.length_append]
  have hidx : X.length + Y.length - n = X.length - (n - Y.length) := by omega
  rw [hidx]
  exact drop_append_le X Y (by omega)

/-- Nested last-n suffixes collapse to the smaller one. -/
theorem takeLast_takeLast (k m : Nat) (X : List α) (h : k ≤ m) :
    takeLast k (takeLast m X) = takeLast k X := by
  simp only [takeLast, List.length_drop, List.drop_drop]
  congr 1
  omega

/-- Taking the last n of a pre-truncated-to-m list is the same as from
the full list, as long as the right part fills the gap. -/
theorem takeLast_absorb (n m : Nat) (X Y : List α) (h : n ≤ m + Y.length) :
    takeLast n (takeLast m X ++ Y) = takeLast n (X ++ Y) := by
  by_cases hy : n ≤ Y.length
  · rw [takeLast_append_ge n _ Y hy, takeLast_append_ge n X Y hy]
  · push_neg at hy
    have hy' : Y.length ≤ n := Nat.le_of_lt hy
    rw [takeLast_append_lt n _ Y hy', takeLast_append_lt n X Y hy']
    rw [takeLast_takeLast (n - Y.length) m X (by omega)]

/-- One append keeps the last capacity-minus-one commits and adds the
new one. -/
theorem commitLogAppend_eq (log : List Commit) (c : Commit) :
    commitLogAppend log c = takeLast (COMMIT_LIMIT - 1) log ++ [c] := by
  rw [commitLogAppend, takeLast]
  by_cases h : COMMIT_LIMIT ≤ log.length
  · rw [if_pos h]
    have hidx : log.length + 1 - COMMIT_LIMIT = log.length - (COMMIT_LIMIT - 1) := by
      simp only [COMMIT_LIMIT]
      omega
    rw [hidx]
  · rw [if_neg h]
    have hz : log.length - (COMMIT_LIMIT - 1) = 0 := by
      simp only [COMMIT_LIMIT] at h ⊢
      omega
    rw [hz, List.drop_zero]

/-- The fold of appends keeps exactly the last capacity-many commits. -/
theorem foldl_commitLogAppend (muts : List Commit) :
    ∀ log : List Commit, log.length ≤ COMMIT_LIMIT →
    muts.foldl commitLogAppend log = takeLast COMMIT_LIMIT (log ++ muts) := by
  induction muts with
  | nil =>
    intro log h
    rw [List.foldl_nil, List.append_nil, takeLast_of_le h]
  | cons c rest ih =>
    intro log h
    rw [List.foldl_cons, commitLogAppend_eq]
    have hlen : (takeLast (COMMIT_LIMIT - 1) log ++ [c]).length ≤ COMMIT_LIMIT := by
      rw [List.length_append, length_takeLast]
      simp only [COMMIT_LIMIT, List.length_cons, List.length_nil]
      omega
    rw [ih _ hlen, List.append_assoc]
    exact takeLast_absorb COMMIT_LIMIT (COMMIT_LIMIT - 1) log (c :: rest)
      (by simp only [COMMIT_LIMIT, List.length_cons]; omega)

/-- C6 (spec-modelled: the Commit Log lives in the server's
`lib/store.js`, which is absent from the sources): after any sequence of
successful mutations whose commits carry nondecreasing timestamps, the
log holds exactly the last min(50, mutation-count) commits — the oldest
are evicted first — and remains ordered by timestamp ascending, never
exceeding the fixed capacity of 50. -/
theorem c6_commit_log (muts : List Commit)
    (h : List.Pairwise (fun a b => a.timestamp ≤ b.timestamp) muts) :
    commitLogOfRun muts = takeLast COMMIT_LIMIT muts
    ∧ (commitLogOfRun muts).length = min COMMIT_LIMIT muts.length
    ∧ List.Pairwise (fun a b => a.timestamp ≤ b.timestamp) (commitLogOfRun muts) := by
  have he : commitLogOfRun muts = takeLast COMMIT_LIMIT muts := by
    rw [commitLogOfRun, foldl_commitLogAppend muts [] (by simp)]
    rw [List.nil_append]
  refine ⟨he, ?_, ?_⟩
  · rw [he, length_takeLast]
  · rw [he, takeLast]
    exact List.Pairwise.sublist (List.drop_sublist _ _) h

/-- C6 witness: the commit-log law applied to a concrete two-commit
run. -/
theorem c6_commit_log_witness :
    List.Pairwise (fun a b => a.timestamp ≤ b.timestamp) c6muts
    ∧ (commitLogOfRun c6muts = takeLast COMMIT_LIMIT c6muts
       ∧ (commitLogOfRun c6muts).length = min COMMIT_LIMIT c6muts.length
       ∧ List.Pairwise (fun a b => a.timestamp ≤ b.timestamp) (commitLogOfRun c6muts)) :=
  ⟨by decide, c6_commit_log c6muts (by decide)⟩

/-- C7 counterexample: a successful category creation carrying the
session code of a session with one open browser handle and one open mcp
handle, originated by the browser.  The claim requires delivery to every
connected handle of both roles except the originator — here exactly the
mcp handle — but the code delivers to the browser handles only,
originator included, and to no mcp handle. -/
theorem c7_claim_counterexample :
    ((createCategoryRoute (Except.ok c7cat) c7sessions "proj" (some "ABCDEF")).2.map Prod.fst
      = [wsB])
    ∧ claimBroadcastTargets c7sessions "ABCDEF" wsB = [wsM]
    ∧ ([wsB] : List WClient) ≠ [wsM] :=
  ⟨by decide, by decide, by decide⟩

/-- C7 amended: on a successful mutation carrying a truthy session code
of a registered session, the handler responds with the store result and
delivers exactly one data-changed event (carrying the dataset name) to
every currently open browser-role handle of that session — with no
originator exclusion — and to no one else; in particular every
recipient is a browser-role member, so secondary-role (mcp) handles
receive nothing. -/
theorem c7_amended_broadcast (result : Category) (sessions : List (String × Session))
    (code projectName : String) (s : Session)
    (hs : alookup code sessions = some s) (hcode : code ≠ "") :
    (createCategoryRoute (Except.ok result) sessions projectName (some code)).1
      = Except.ok result
    ∧ (createCategoryRoute (Except.ok result) sessions projectName (some code)).2
      = (s.browsers.filter (fun ws => ws.readyState = 1)).map
          (fun ws => (ws, ⟨"data:changed", WsData.projectOf projectName⟩))
    ∧ ∀ d ∈ (createCategoryRoute (Except.ok result) sessions projectName (some code)).2,
        d.1 ∈ s.browsers := by
  have hb : (createCategoryRoute (Except.ok result) sessions projectName (some code)).2
      = (s.browsers.filter (fun ws => ws.readyState = 1)).map
          (fun ws => (ws, ⟨"data:changed", WsData.projectOf projectName⟩)) := by
    simp [createCategoryRoute, jsTruthyStr, hcode, broadcastToBrowsers, hs]
  refine ⟨rfl, hb, ?_⟩
  intro d hd
  rw [hb] at hd
  obtain ⟨ws, hws, rfl⟩ := List.mem_map.mp hd
  exact List.mem_of_mem_filter hws

/-- C7 witness: the amended broadcast theorem applied to the concrete
session of the counterexample. -/
theorem c7_amended_broadcast_witness :
    alookup "ABCDEF" c7sessions = some ⟨[wsB], [wsM], 0⟩
    ∧ ((createCategoryRoute (Except.ok c7cat) c7sessions "proj" (some "ABCDEF")).1
        = Except.ok c7cat
      ∧ (createCategoryRoute (Except.ok c7cat) c7sessions "proj" (some "ABCDEF")).2
        = (((⟨[wsB], [wsM], 0⟩ : Session)).browsers.filter (fun ws => ws.readyState = 1)).map
            (fun ws => (ws, ⟨"data:changed", WsData.projectOf "proj"⟩))
      ∧ ∀ d ∈ (createCategoryRoute (Except.ok c7cat) c7sessions "proj" (some "ABCDEF")).2,
          d.1 ∈ ((⟨[wsB], [wsM], 0⟩ : Session)).browsers) :=
  ⟨by decide,
   c7_amended_broadcast c7cat c7sessions "ABCDEF" "proj" ⟨[wsB], [wsM], 0⟩
     (by decide) (by decide)⟩

/-- C8 counterexample: a session holds one browser and two mcp members;
when the first mcp member disconnects, the code broadcasts
mcp:disconnected to the browser although the second mcp member is still
connected — the claim forbids any emission while another secondary-role
member remains. -/
theorem c8_claim_counterexample :
    (wsCloseHandler c8sessions "ABCDEF" "mcp" wsM 99).2
      = [(wsB, ⟨"mcp:disconnected", WsData.timestampOf 99⟩)]
    ∧ (alookup "ABCDEF" (wsCloseHandler c8sessions "ABCDEF" "mcp" wsM 99).1).map
        (fun s => s.mcpClients) = some [wsM2] :=
  ⟨by decide, by decide⟩

/-- C8 amended: the close handler broadcasts mcp:disconnected to the
open browser-role handles of the session on every disconnect of a
secondary-role member, regardless of whether other secondary-role
members remain connected. -/
theorem c8_amended_presence (sessions : List (String × Session)) (code : String)
    (ws : WClient) (now : Nat) (s : Session)
    (hs : alookup code sessions = some s) :
    (wsCloseHandler sessions code "mcp" ws now).2
      = (s.browsers.filter (fun w => w.readyState = 1)).map
          (fun w => (w, ⟨"mcp:disconnected", WsData.timestampOf now⟩)) := by
  simp [wsCloseHandler, hs, closeUpdatedSession, broadcastToBrowsers, alookup_upsert_self]

/-- C8 witness: the amended presence theorem applied to the concrete
session of the counterexample. -/
theorem c8_amended_presence_witness :
    alookup "ABCDEF" c8sessions = some ⟨[wsB], [wsM, wsM2], 7⟩
    ∧ (wsCloseHandler c8sessions "ABCDEF" "mcp" wsM 99).2
      = (((⟨[wsB], [wsM, wsM2], 7⟩ : Session)).browsers.filter (fun w => w.readyState = 1)).map
          (fun w => (w, ⟨"mcp:disconnected", WsData.timestampOf 99⟩)) :=
  ⟨by decide,
   c8_amended_presence c8sessions "ABCDEF" wsM 99 ⟨[wsB], [wsM, wsM2], 7⟩ (by decide)⟩

/-- C9 counterexample: a session whose only member, a browser,
disconnects.  The close handler itself removes the session from the
registry — the claim asserts removal happens only in the periodic
sweep, never as part of disconnect handling. -/
theorem c9_claim_counterexample :
    alookup "ABCDEF" c9sessions = some ⟨[wsB], [], 5⟩
    ∧ (wsCloseHandler c9sessions "ABCDEF" "browser" wsB 10).1 = []
    ∧ alookup "ABCDEF" (wsCloseHandler c9sessions "ABCDEF" "browser" wsB 10).1 = none :=
  ⟨by decide, by decide, by decide⟩

/-- C9 amended: a session is removed from the registry in exactly two
ways — immediately by the disconnect handler when both member sets
become empty with this disconnect, and by the periodic sweep when both
member sets are empty and more than 30 minutes have elapsed since the
session's creation; in all other situations the entry survives (with
the disconnecting handle removed from its role's set). -/
theorem c9_amended_removal :
    (∀ (sessions : List (String × Session)) (code clientType : String)
       (ws : WClient) (now : Nat) (s : Session),
      alookup code sessions = some s →
      alookup code ((wsCloseHandler sessions code clientType ws now).1)
        = (if (closeUpdatedSession clientType ws s).browsers = []
              ∧ (closeUpdatedSession clientType ws s).mcpClients = []
           then none else some (closeUpdatedSession clientType ws s)))
    ∧ (∀ (now : Nat) (sessions : List (String × Session)) (code : String) (s : Session),
      PairwiseKeys sessions →
      alookup code sessions = some s →
      alookup code (sweepSessions now sessions)
        = (if s.browsers = [] ∧ s.mcpClients = []
              ∧ 30 * 60 * 1000 < now - s.createdAt
           then none else some s)) := by
  constructor
  · intro sessions code clientType ws now s hs
    by_cases hc : (closeUpdatedSession clientType ws s).browsers = []
        ∧ (closeUpdatedSession clientType ws s).mcpClients = []
    · rw [if_pos hc]
      have hreg : (wsCloseHandler sessions code clientType ws now).1
          = mapDelete code (upsert code (closeUpdatedSession clientType ws s) sessions) := by
        simp [wsCloseHandler, hs, hc]
      rw [hreg, alookup_mapDelete_self]
    · rw [if_neg hc]
      have hreg : (wsCloseHandler sessions code clientType ws now).1
          = upsert code (closeUpdatedSession clientType ws s) sessions := by
        simp [wsCloseHandler, hs, hc]
      rw [hreg, alookup_upsert_self]
  · intro now sessions code s hpw hs
    rw [sweepSessions]
    by_cases hc : s.browsers = [] ∧ s.mcpClients = [] ∧ 30 * 60 * 1000 < now - s.createdAt
    · rw [if_pos hc]
      refine alookup_filter_neg hpw hs ?_
      simp [hc.1, hc.2.1, hc.2.2]
    · rw [if_neg hc]
      refine alookup_filter_pos hpw hs ?_
      simp only [Bool.not_eq_true']
      simpa using hc

/-- C9 witness: part one applied to the last-browser disconnect of the
counterexample session, part two applied to an empty stale session
swept after the 30-minute threshold. -/
theorem c9_amended_removal_witness :
    alookup "ABCDEF" c9sessions = some ⟨[wsB], [], 5⟩
    ∧ alookup "ABCDEF" ((wsCloseHandler c9sessions "ABCDEF" "browser" wsB 10).1)
      = (if (closeUpdatedSession "browser" wsB ⟨[wsB], [], 5⟩).browsers = []
            ∧ (closeUpdatedSession "browser" wsB ⟨[wsB], [], 5⟩).mcpClients = []
         then none else some (closeUpdatedSession "browser" wsB ⟨[wsB], [], 5⟩))
    ∧ PairwiseKeys c9empty
    ∧ alookup "GONE42" c9empty = some ⟨[], [], 5⟩
    ∧ alookup "GONE42" (sweepSessions 1800006 c9empty)
      = (if (⟨[], [], 5⟩ : Session).browsers = [] ∧ (⟨[], [], 5⟩ : Session).mcpClients = []
            ∧ 30 * 60 * 1000 < 1800006 - (⟨[], [], 5⟩ : Session).createdAt
         then none else some (⟨[], [], 5⟩ : Session)) :=
  ⟨by decide,
   c9_amended_removal.1 c9sessions "ABCDEF" "browser" wsB 10 ⟨[wsB], [], 5⟩ (by decide),
   by decide, by decide,
   c9_amended_removal.2 1800006 c9empty "GONE42" ⟨[], [], 5⟩ (by decide) (by decide)⟩

/-- Any-witness survives replacing the first matching element, when the
replacement preserves the witness predicate. -/
theorem any_updateFirst {p q : α → Bool} {f : α → α} (l : List α)
    (hmono : ∀ x, q x = true → q (f x) = true) (h : l.any q = true) :
    (updateFirst p f l).any q = true := by
  induction l with
  | nil => simp at h
  | cons x xs ih =>
    rw [updateFirst]
    rw [List.any_cons] at h
    by_cases hp : p x = true
    · rw [if_pos hp, List.any_cons]
      rcases (Bool.or_eq_true _ _).mp h with h1 | h1
      · exact (Bool.or_eq_true _ _).mpr (Or.inl (hmono x h1))
      · exact (Bool.or_eq_true _ _).mpr (Or.inr h1)
    · rw [if_neg hp, List.any_cons]
      rcases (Bool.or_eq_true _ _).mp h with h1 | h1
      · exact (Bool.or_eq_true _ _).mpr (Or.inl h1)
      · exact (Bool.or_eq_true _ _).mpr (Or.inr (ih h1))

/-- C10: duplicating a chunk with a non-empty user-facing id appends a
copy whose id is the original id with "_copy" appended, without any
uniqueness check; when a distinct chunk with exactly that id already
exists anywhere in the project, the resulting project carries two
distinct chunks (different stable identifiers) sharing one non-empty
user-facing id — the store's own uniqueness check isChunkIdTaken
reports the conflict on the mutated project. -/
theorem c10_duplicate_id_conflict (project : StoreProject)
    (catId chunkUid freshUid : String) (cat : Category) (orig : Chunk)
    (hcat : project.categories.find? (fun c => c.id = catId) = some cat)
    (horig : cat.chunks.find? (fun ch => ch._uid = chunkUid) = some orig)
    (hid : orig.id ≠ "")
    (hconf : ∃ cat2 ∈ project.categories, ∃ other ∈ cat2.chunks,
      other.id = orig.id ++ "_copy")
    (hfresh : ∀ c ∈ project.categories, ∀ ch ∈ c.chunks, ch._uid ≠ freshUid) :
    ∃ project' copy, duplicateChunk project catId chunkUid freshUid = some (project', copy)
    ∧ copy.id = orig.id ++ "_copy"
    ∧ copy.id ≠ ""
    ∧ copy._uid = freshUid
    ∧ isChunkIdTaken project' copy.id copy._uid = true := by
  have hne : orig.id ++ "_copy" ≠ "" := by
    intro h
    have hlen := congrArg String.length h
    rw [String.length_append] at hlen
    have h5 : ("_copy" : String).length = 5 := rfl
    have h0 : ("" : String).length = 0 := rfl
    omega
  refine ⟨{ project with categories := (updateFirst (fun c => c.id = catId)
      (fun c => { c with chunks := (c.chunks
        ++ [{ orig with _uid := freshUid, id := orig.id ++ "_copy" }]) })
      project.categories) },
    { orig with _uid := freshUid, id := orig.id ++ "_copy" }, ?_, rfl, hne, rfl, ?_⟩
  · simp [duplicateChunk, hcat, horig, hid]
  · obtain ⟨cat2, hcat2, other, hother, hoid⟩ := hconf
    rw [isChunkIdTaken, if_neg hne]
    refine any_updateFirst project.categories (fun c hqc => ?_) ?_
    · rw [List.any_append] at *
      exact (Bool.or_eq_true _ _).mpr (Or.inl hqc)
    · refine List.any_eq_true.mpr ⟨cat2, hcat2, ?_⟩
      refine List.any_eq_true.mpr ⟨other, hother, ?_⟩
      have huid : other._uid ≠ freshUid := hfresh cat2 hcat2 other hother
      exact decide_eq_true ⟨huid, hoid⟩

/-- C10 witness: duplicating chunk "u1" (id "x") of the concrete
project that already holds a chunk with id "x_copy" leaves the project
with a detectable id conflict. -/
theorem c10_duplicate_id_conflict_witness :
    c10proj.categories.find? (fun c => c.id = "cat1")
      = some ⟨"cat1", "A", true, [c10orig, c10other]⟩
    ∧ c10orig.id ≠ ""
    ∧ (∃ cat2 ∈ c10proj.categories, ∃ other ∈ cat2.chunks,
        other.id = c10orig.id ++ "_copy")
    ∧ (∀ c ∈ c10proj.categories, ∀ ch ∈ c.chunks, ch._uid ≠ "u3")
    ∧ (∃ project' copy, duplicateChunk c10proj "cat1" "u1" "u3" = some (project', copy)
       ∧ copy.id = c10orig.id ++ "_copy"
       ∧ copy.id ≠ ""
       ∧ copy._uid = "u3"
       ∧ isChunkIdTaken project' copy.id copy._uid = true) :=
  ⟨by decide, by decide, by decide, by decide,
   c10_duplicate_id_conflict c10proj "cat1" "u1" "u3"
     ⟨"cat1", "A", true, [c10orig, c10other]⟩ c10orig
     (by decide) (by decide) (by decide) (by decide) (by decide)⟩

end DatasetBuilder
